import Mathlib

/-!
# hub-backend: the feed cache server of `main.go`

A shallow embedding of the HTTP read path (`getFeed`, `getArticle`, `getFeeds`),
of the access gate (`verifyToken`) and of the refresh pass (`catchFeeds`).

Conventions of the embedding.

* A Go `string` or `[]byte` is a Lean `String`, that is a sequence of Unicode
  scalar values: the byte strings that are valid UTF-8.  Every string a `Feed`
  holds in the program comes out of `json.Unmarshal`, which only produces such
  strings.
* A Go slice is an `Option (List _)`; `none` is the `nil` slice.
* `int` is 64 bits wide.
* A panic is a value: functions that can panic return `Except Panic _`.
* The standard library (`strconv.Atoi`, `encoding/json`) is modelled from its
  documented behaviour, in the namespaces `Strconv` and `JSON`.
-/

namespace Hub

/-! ## encoding/json: lexical level -/

namespace JSON

/-- The double quote, U+0022. -/
def dq : Char := Char.ofNat 34

/-- The backslash, U+005C. -/
def bs : Char := Char.ofNat 92

/-- The opening brace, U+007B. -/
def lbrace : Char := Char.ofNat 123

/-- The closing brace, U+007D. -/
def rbrace : Char := Char.ofNat 125

/-- The replacement character U+FFFD (`unicode.ReplacementChar`). -/
def replacementChar : Char := Char.ofNat 0xFFFD

/-- The table `hex = "0123456789abcdef"` of `encode.go`. -/
def hexDigit (n : Nat) : Char := "0123456789abcdef".data.getD n '0'

/-- Value of one hexadecimal digit, either case. -/
def hexVal (c : Char) : Option Nat :=
  if 48 ≤ c.toNat ∧ c.toNat ≤ 57 then some (c.toNat - 48)
  else if 97 ≤ c.toNat ∧ c.toNat ≤ 102 then some (c.toNat - 87)
  else if 65 ≤ c.toNat ∧ c.toNat ≤ 70 then some (c.toNat - 55)
  else none

/-- The function `getu4`: the number written by the four hexadecimal digits of
a `\uXXXX` escape. -/
def getu4 (a b c d : Char) : Option Nat :=
  match hexVal a, hexVal b, hexVal c, hexVal d with
  | some x, some y, some z, some w => some (((x * 16 + y) * 16 + z) * 16 + w)
  | _, _, _, _ => none

/-- How `appendString` (with `escapeHTML` on, as `json.Marshal` has it) writes
one character of a string. -/
def escapeChar (c : Char) : List Char :=
  if c = dq ∨ c = bs then [bs, c]
  else if c.toNat = 8 then [bs, 'b']
  else if c.toNat = 12 then [bs, 'f']
  else if c.toNat = 10 then [bs, 'n']
  else if c.toNat = 13 then [bs, 'r']
  else if c.toNat = 9 then [bs, 't']
  else if c.toNat < 32 ∨ c = '<' ∨ c = '>' ∨ c = '&' then
    [bs, 'u', '0', '0', hexDigit (c.toNat / 16), hexDigit (c.toNat % 16)]
  else if c.toNat = 0x2028 then [bs, 'u', '2', '0', '2', '8']
  else if c.toNat = 0x2029 then [bs, 'u', '2', '0', '2', '9']
  else [c]

/-- The characters between the quotes of an encoded string. -/
def escape : List Char → List Char
  | [] => []
  | c :: cs => escapeChar c ++ escape cs

/-- The function `appendString`: a string as a JSON string literal. -/
def quote (s : List Char) : List Char := dq :: (escape s ++ [dq])

/-- Prepends a decoded character to the result of scanning the rest. -/
def pushChar (c : Char) : Option (List Char × List Char) → Option (List Char × List Char)
  | some (s, r) => some (c :: s, r)
  | none => none

/-- The function `utf16.IsSurrogate`. -/
def isSurrogate (r : Nat) : Bool := 0xD800 ≤ r && r < 0xE000

/-- The function `utf16.DecodeRune` on a pair of code units; `none` stands
for the replacement character. -/
def decodeSurrogates (r1 r2 : Nat) : Option Nat :=
  if 0xD800 ≤ r1 ∧ r1 < 0xDC00 ∧ 0xDC00 ≤ r2 ∧ r2 < 0xE000 then
    some ((r1 - 0xD800) * 1024 + (r2 - 0xDC00) + 0x10000)
  else none

/-- The second code unit of a surrogate pair, when the text goes on with a
well-formed `\uXXXX` (`getu4` of the Go code returns -1 otherwise). -/
def nextUnit : List Char → Option (Nat × List Char)
  | b :: u :: a1 :: b1 :: c1 :: d1 :: rest =>
    if b = bs ∧ u = 'u' then
      match getu4 a1 b1 c1 d1 with
      | some r => some (r, rest)
      | none => none
    else none
  | _ => none

/-- The scanner's string state followed by `unquote`: reads a string literal
whose opening quote has been consumed, up to and including the closing quote,
and returns the decoded string and the text after it.  Control characters and
unknown or truncated escapes are rejected as the scanner does; a surrogate
without its pair decodes to U+FFFD. -/
def scanString : Nat → List Char → Option (List Char × List Char)
  | 0, _ => none
  | _ + 1, [] => none
  | fuel + 1, c :: rest =>
    if c = dq then some ([], rest)
    else if c = bs then
      match rest with
      | [] => none
      | e :: rest1 =>
        if e = dq then pushChar dq (scanString fuel rest1)
        else if e = bs then pushChar bs (scanString fuel rest1)
        else if e = '/' then pushChar '/' (scanString fuel rest1)
        else if e = 'b' then pushChar (Char.ofNat 8) (scanString fuel rest1)
        else if e = 'f' then pushChar (Char.ofNat 12) (scanString fuel rest1)
        else if e = 'n' then pushChar (Char.ofNat 10) (scanString fuel rest1)
        else if e = 'r' then pushChar (Char.ofNat 13) (scanString fuel rest1)
        else if e = 't' then pushChar (Char.ofNat 9) (scanString fuel rest1)
        else if e = 'u' then
          match rest1 with
          | a :: b :: c1 :: d :: rest2 =>
            match getu4 a b c1 d with
            | none => none
            | some rr =>
              if isSurrogate rr then
                match nextUnit rest2 with
                | some (rr1, rest3) =>
                  match decodeSurrogates rr rr1 with
                  | some r => pushChar (Char.ofNat r) (scanString fuel rest3)
                  | none => pushChar replacementChar (scanString fuel rest2)
                | none => pushChar replacementChar (scanString fuel rest2)
              else pushChar (Char.ofNat rr) (scanString fuel rest2)
          | _ => none
        else none
    else if c.toNat < 32 then none
    else pushChar c (scanString fuel rest)

/-- JSON white space. -/
def isSpace (c : Char) : Bool :=
  c = ' ' || c.toNat = 9 || c.toNat = 13 || c.toNat = 10

/-- Drops leading white space. -/
def skipSpace : List Char → List Char
  | [] => []
  | c :: cs => if isSpace c then skipSpace cs else c :: cs

/-- Decimal digit. -/
def isDigit (c : Char) : Bool := 48 ≤ c.toNat && c.toNat ≤ 57

/-- The longest run of digits at the head of the text, and the rest. -/
def spanDigits : List Char → List Char × List Char
  | [] => ([], [])
  | c :: cs => if isDigit c then ((spanDigits cs).1.cons c, (spanDigits cs).2) else ([], c :: cs)

/-- One or more digits. -/
def digits1 (cs : List Char) : Option (List Char × List Char) :=
  match spanDigits cs with
  | ([], _) => none
  | (d :: ds, rest) => some (d :: ds, rest)

/-- The integer part of a number: `0`, or a non-zero digit and more digits. -/
def scanInt : List Char → Option (List Char × List Char)
  | [] => none
  | c :: cs =>
    if c = '0' then some (['0'], cs)
    else if isDigit c then some ((spanDigits cs).1.cons c, (spanDigits cs).2)
    else none

/-- The optional fraction of a number. -/
def scanFrac : List Char → Option (List Char × List Char)
  | [] => some ([], [])
  | c :: cs =>
    if c = '.' then (digits1 cs).map (fun p => (p.1.cons '.', p.2))
    else some ([], c :: cs)

/-- The optional exponent of a number. -/
def scanExp : List Char → Option (List Char × List Char)
  | [] => some ([], [])
  | c :: cs =>
    if c = 'e' ∨ c = 'E' then
      match cs with
      | s :: cs1 =>
        if s = '+' ∨ s = '-' then (digits1 cs1).map (fun p => (c :: s :: p.1, p.2))
        else (digits1 cs).map (fun p => (p.1.cons c, p.2))
      | [] => none
    else some ([], c :: cs)

/-- A number literal and the text after it. -/
def scanNumber (cs : List Char) : Option (List Char × List Char) :=
  let signed := match cs with
    | c :: cs1 => if c = '-' then (['-'], cs1) else ([], c :: cs1)
    | [] => ([], [])
  match scanInt signed.2 with
  | none => none
  | some (i, r1) =>
    match scanFrac r1 with
    | none => none
    | some (f, r2) =>
      match scanExp r2 with
      | none => none
      | some (e, r3) => some (signed.1 ++ i ++ f ++ e, r3)

/-! ## encoding/json: values -/

/-- A JSON text as a tree. -/
inductive Value where
  | null
  | bool (b : Bool)
  | number (lit : List Char)
  | string (s : List Char)
  | array (elems : List Value)
  | object (members : List (List Char × Value))

mutual
/-- The compact text `json.Marshal` writes for a tree. -/
def render : Value → List Char
  | .null => ['n', 'u', 'l', 'l']
  | .bool b => if b then ['t', 'r', 'u', 'e'] else ['f', 'a', 'l', 's', 'e']
  | .number l => l
  | .string s => quote s
  | .array l => '[' :: renderElems l
  | .object l => lbrace :: renderMembers l
/-- The elements of an array and its closing bracket. -/
def renderElems : List Value → List Char
  | [] => [']']
  | [v] => render v ++ [']']
  | v :: w :: vs => render v ++ ',' :: renderElems (w :: vs)
/-- The members of an object and its closing brace. -/
def renderMembers : List (List Char × Value) → List Char
  | [] => [rbrace]
  | [(k, v)] => quote k ++ ':' :: render v ++ [rbrace]
  | (k, v) :: m :: ms => quote k ++ ':' :: render v ++ ',' :: renderMembers (m :: ms)
end

/-- The constant `maxNestingDepth` of the scanner: how many arrays and objects
may be open at once. -/
def maxNestingDepth : Nat := 10000

mutual
/-- Reads one value, after optional white space, and returns it with the text
that follows.  The first argument bounds the recursion; the second, `room`,
is how many more arrays and objects may be opened: the scanner fails with
`exceeded max depth` at a bracket or brace that opens one too many. -/
def parseValue : Nat → Nat → List Char → Option (Value × List Char)
  | 0, _, _ => none
  | fuel + 1, room, cs =>
    match skipSpace cs with
    | [] => none
    | c :: rest =>
      if c = dq then
        match scanString (rest.length + 1) rest with
        | some (s, r) => some (.string s, r)
        | none => none
      else if c = lbrace then
        if room = 0 then none
        else
          match skipSpace rest with
          | [] => none
          | c1 :: rest1 =>
            if c1 = rbrace then some (.object [], rest1)
            else
              match parseMembers fuel (room - 1) (c1 :: rest1) with
              | some (ms, r) => some (.object ms, r)
              | none => none
      else if c = '[' then
        if room = 0 then none
        else
          match skipSpace rest with
          | [] => none
          | c1 :: rest1 =>
            if c1 = ']' then some (.array [], rest1)
            else
              match parseElems fuel (room - 1) (c1 :: rest1) with
              | some (vs, r) => some (.array vs, r)
              | none => none
      else if c = 't' then
        match rest with
        | 'r' :: 'u' :: 'e' :: r => some (.bool true, r)
        | _ => none
      else if c = 'f' then
        match rest with
        | 'a' :: 'l' :: 's' :: 'e' :: r => some (.bool false, r)
        | _ => none
      else if c = 'n' then
        match rest with
        | 'u' :: 'l' :: 'l' :: r => some (.null, r)
        | _ => none
      else
        match scanNumber (c :: rest) with
        | some (l, r) => some (.number l, r)
        | none => none
/-- Reads the elements of a non-empty array up to the closing bracket. -/
def parseElems : Nat → Nat → List Char → Option (List Value × List Char)
  | 0, _, _ => none
  | fuel + 1, room, cs =>
    match parseValue fuel room cs with
    | none => none
    | some (v, rest) =>
      match skipSpace rest with
      | [] => none
      | c :: rest1 =>
        if c = ',' then
          match parseElems fuel room rest1 with
          | some (vs, r) => some (v :: vs, r)
          | none => none
        else if c = ']' then some ([v], rest1)
        else none
/-- Reads the members of a non-empty object up to the closing brace. -/
def parseMembers : Nat → Nat → List Char → Option (List (List Char × Value) × List Char)
  | 0, _, _ => none
  | fuel + 1, room, cs =>
    match skipSpace cs with
    | [] => none
    | c :: rest =>
      if c = dq then
        match scanString (rest.length + 1) rest with
        | none => none
        | some (k, rest1) =>
          match skipSpace rest1 with
          | [] => none
          | c1 :: rest2 =>
            if c1 = ':' then
              match parseValue fuel room rest2 with
              | none => none
              | some (v, rest3) =>
                match skipSpace rest3 with
                | [] => none
                | c2 :: rest4 =>
                  if c2 = ',' then
                    match parseMembers fuel room rest4 with
                    | some (ms, r) => some ((k, v) :: ms, r)
                    | none => none
                  else if c2 = rbrace then some ([(k, v)], rest4)
                  else none
            else none
      else none
end

/-- The function `checkValid` followed by the tree of the text: a whole input
is one value between optional white space, nested no deeper than
`maxNestingDepth`. -/
def parse (cs : List Char) : Option Value :=
  match parseValue (cs.length + 1) maxNestingDepth cs with
  | some (v, rest) => if skipSpace rest = [] then some v else none
  | none => none

/-- The text written for a tree reads back as that tree, whatever follows it,
wherever `depth` more arrays and objects may be opened. -/
def RoundTrips (v : Value) (depth : Nat) : Prop :=
  ∀ (fuel room : Nat) (X : List Char), (render v).length ≤ fuel → depth ≤ room →
    parseValue fuel room (render v ++ X) = some (v, X)

/-- The text written for a tree starts with a character that is neither white
space nor a closing bracket. -/
def Starts (v : Value) : Prop :=
  ∃ c t, render v = c :: t ∧ isSpace c = false ∧ c ≠ ']'

/-! ## encoding/json: struct fields -/

/-- Case folding of `foldName` as far as it can produce an ASCII letter: ASCII
lower case letters, the long s (U+017F) and the Kelvin sign (U+212A) are the
only characters that fold to one. -/
def foldChar (c : Char) : Char :=
  if 97 ≤ c.toNat ∧ c.toNat ≤ 122 then Char.ofNat (c.toNat - 32)
  else if c.toNat = 0x17F then 'S'
  else if c.toNat = 0x212A then 'K'
  else c

/-- The folded form of a key. -/
def foldName (k : List Char) : List Char := k.map foldChar

/-- The struct field an object key selects: the field of exactly that name,
or else the first field equal to the key under case folding. -/
def findField (fields : List String) (key : List Char) : Option String :=
  match fields.find? (fun f => f.data = key) with
  | some f => some f
  | none => fields.find? (fun f => foldName f.data = foldName key)

/-- Decoding into a `string`: a JSON string is stored; `null` is ignored; any
other value is an `UnmarshalTypeError` that leaves the field as it is. -/
def decodeString (dst : String) : Value → String
  | .string s => String.mk s
  | _ => dst

/-- The elements of an array decoded into a `[]string` whose backing array
holds `backing`: element `i` is decoded into what the array holds at `i`, and
into the empty string once the array is used up and grown. -/
def decodeStringElems : List String → List Value → List String
  | _, [] => []
  | [], v :: vs => decodeString "" v :: decodeStringElems [] vs
  | o :: os, v :: vs => decodeString o v :: decodeStringElems os vs

/-- Decoding into a `[]string`.  The slice `dst` comes with `stale`, what its
backing array holds behind its elements (strings an earlier, longer array left
there); the result is the new slice and what lies behind it.  An array is
decoded element by element into the backing array and the slice is cut or
extended to its length; the empty array gives a fresh empty slice, `null` the
nil slice; any other value leaves the slice as it is. -/
def decodeStrings (dst : Option (List String)) (stale : List String) :
    Value → Option (List String) × List String
  | .array [] => (some [], [])
  | .array (v :: vs) =>
    (some (decodeStringElems (dst.getD [] ++ stale) (v :: vs)),
      (dst.getD [] ++ stale).drop (v :: vs).length)
  | .null => (none, [])
  | _ => (dst, stale)

end JSON

/-! ## strconv -/

namespace Strconv

/-- The two errors of a `*NumError`. -/
inductive NumError where
  | ErrSyntax
  | ErrRange
  deriving DecidableEq, Repr

/-- The largest `uint64`. -/
def maxUint64 : Nat := 2 ^ 64 - 1

/-- The loop of `ParseUint(s, 10, 64)`: every character is checked in turn, and
the function returns at the first character that is no digit (syntax error,
value 0) or that makes the number overflow (range error, largest value),
whichever comes first. -/
def parseUintLoop : List Char → Nat → Nat × Option NumError
  | [], n => (n, none)
  | c :: cs, n =>
    if JSON.isDigit c = false then (0, some .ErrSyntax)
    else if n ≥ maxUint64 / 10 + 1 then (maxUint64, some .ErrRange)
    else
      let n10 := n * 10 % 2 ^ 64
      let n1 := (n10 + (c.toNat - 48)) % 2 ^ 64
      if n1 < n10 ∨ n1 > maxUint64 then (maxUint64, some .ErrRange)
      else parseUintLoop cs n1

/-- The function `strconv.ParseUint(s, 10, 64)`. -/
def ParseUint (s : List Char) : Nat × Option NumError :=
  if s = [] then (0, some .ErrSyntax) else parseUintLoop s 0

/-- The function `strconv.ParseInt(s, 10, 0)` with a 64 bit `int`. -/
def ParseInt (s : List Char) : Int × Option NumError :=
  match s with
  | [] => (0, some .ErrSyntax)
  | c :: cs =>
    let neg : Bool := c = '-'
    let s1 := if c = '+' ∨ c = '-' then cs else c :: cs
    match ParseUint s1 with
    | (_, some .ErrSyntax) => (0, some .ErrSyntax)
    | (un, _) =>
      if neg = false ∧ un ≥ 2 ^ 63 then ((2 : Int) ^ 63 - 1, some .ErrRange)
      else if neg = true ∧ un > 2 ^ 63 then (-(2 : Int) ^ 63, some .ErrRange)
      else (if neg then -(un : Int) else (un : Int), none)

/-- The digit loop of the fast path of `Atoi`. -/
def atoiLoop : List Char → Nat → Option Nat
  | [], n => some n
  | c :: cs, n => if JSON.isDigit c = false then none else atoiLoop cs (n * 10 + (c.toNat - 48))

/-- The function `strconv.Atoi`: the value and the error.  Strings of 1 to 18
bytes take the fast path, the others go through `ParseInt`. -/
def Atoi (s : String) : Int × Option NumError :=
  if 0 < s.utf8ByteSize ∧ s.utf8ByteSize < 19 then
    match s.data with
    | [] => (0, some .ErrSyntax)
    | c :: cs =>
      let s1 := if c = '-' ∨ c = '+' then cs else c :: cs
      if s1 = [] then (0, some .ErrSyntax)
      else
        match atoiLoop s1 0 with
        | none => (0, some .ErrSyntax)
        | some n => (if c = '-' then -(n : Int) else (n : Int), none)
  else ParseInt s.data

/-- A decimal integer as the specification means it: an optional sign and one
or more decimal digits. -/
def IsDecimalInteger (s : String) : Bool :=
  match s.data with
  | [] => false
  | c :: cs =>
    if c = '-' ∨ c = '+' then (cs.all JSON.isDigit && cs ≠ [])
    else (c :: cs).all JSON.isDigit

end Strconv

/-! ## main.go: data -/

/-- The struct `AuthorInfo`. -/
structure AuthorInfo where
  Name : String := ""
  deriving DecidableEq, Repr

/-- The struct `Article`. -/
structure Article where
  Title : String := ""
  Description : String := ""
  Content : String := ""
  Author : AuthorInfo := {}
  Categories : Option (List String) := none
  Link : String := ""
  PublishedParsed : String := ""
  URL : String := ""
  deriving DecidableEq, Repr

/-- The struct `Feed`. -/
structure Feed where
  Title : String := ""
  Description : String := ""
  Link : String := ""
  Items : Option (List Article) := none
  deriving DecidableEq, Repr

/-- The struct `FeedRegistry`. -/
structure FeedRegistry where
  Name : String := ""
  URL : String := ""
  deriving DecidableEq, Repr

/-- The struct `token`. -/
structure token where
  Token : String := ""
  deriving DecidableEq, Repr

/-! ## encoding/json on the structs of main.go -/

namespace JSON

/-- The tree `json.Marshal` writes for an `AuthorInfo`. -/
def authorInfoJSON (a : AuthorInfo) : Value :=
  .object [("Name".data, .string a.Name.data)]

/-- The tree of a `[]string`: `null` for the nil slice. -/
def stringsJSON : Option (List String) → Value
  | none => .null
  | some l => .array (l.map (fun s => Value.string s.data))

/-- The tree `json.Marshal` writes for an `Article`: the fields in the order
of their declaration. -/
def articleJSON (a : Article) : Value :=
  .object [
    ("Title".data, .string a.Title.data),
    ("Description".data, .string a.Description.data),
    ("Content".data, .string a.Content.data),
    ("Author".data, authorInfoJSON a.Author),
    ("Categories".data, stringsJSON a.Categories),
    ("Link".data, .string a.Link.data),
    ("PublishedParsed".data, .string a.PublishedParsed.data),
    ("URL".data, .string a.URL.data)]

/-- The tree of a `[]Article`. -/
def articlesJSON : Option (List Article) → Value
  | none => .null
  | some l => .array (l.map articleJSON)

/-- The tree `json.Marshal` writes for a `Feed`. -/
def feedJSON (f : Feed) : Value :=
  .object [
    ("Title".data, .string f.Title.data),
    ("Description".data, .string f.Description.data),
    ("Link".data, .string f.Link.data),
    ("Items".data, articlesJSON f.Items)]

/-- The tree `json.Marshal` writes for a `FeedRegistry`. -/
def feedRegistryJSON (r : FeedRegistry) : Value :=
  .object [("Name".data, .string r.Name.data), ("URL".data, .string r.URL.data)]

/-- The bytes of `json.Marshal(article)`. -/
def marshalArticle (a : Article) : String := String.mk (render (articleJSON a))

/-- The bytes of `json.Marshal(res)` for a `*Feed`. -/
def marshalFeed (f : Feed) : String := String.mk (render (feedJSON f))

/-- The bytes of `json.Marshal(feeds)`: `null` for the nil slice. -/
def marshalFeeds : Option (List FeedRegistry) → String
  | none => "null"
  | some l => String.mk (render (.array (l.map feedRegistryJSON)))

/-- One member of an object decoded into an `AuthorInfo`. -/
def decodeAuthorInfoField (a : AuthorInfo) (m : List Char × Value) : AuthorInfo :=
  match findField ["Name"] m.1 with
  | some _ => { a with Name := decodeString a.Name m.2 }
  | none => a

/-- Decoding into an `AuthorInfo`: the members of an object are stored one
after the other; `null` and values of another kind leave the struct as it is. -/
def decodeAuthorInfo (dst : AuthorInfo) : Value → AuthorInfo
  | .object ms => ms.foldl decodeAuthorInfoField dst
  | _ => dst

/-- The exported fields of `Article`. -/
def articleFields : List String :=
  ["Title", "Description", "Content", "Author", "Categories", "Link", "PublishedParsed", "URL"]

/-- An `Article` in memory while `json.Unmarshal` decodes into it: its fields,
and the strings the backing array of `Categories` holds behind the slice. -/
structure ArticleSlot where
  fields : Article := {}
  staleCategories : List String := []
  deriving DecidableEq, Repr

/-- One member of an object decoded into an `Article`; unknown keys are
skipped. -/
def decodeArticleField (a : ArticleSlot) (m : List Char × Value) : ArticleSlot :=
  match findField articleFields m.1 with
  | some "Title" => { a with fields := { a.fields with Title := decodeString a.fields.Title m.2 } }
  | some "Description" =>
    { a with fields := { a.fields with Description := decodeString a.fields.Description m.2 } }
  | some "Content" =>
    { a with fields := { a.fields with Content := decodeString a.fields.Content m.2 } }
  | some "Author" =>
    { a with fields := { a.fields with Author := decodeAuthorInfo a.fields.Author m.2 } }
  | some "Categories" =>
    { fields := { a.fields with
        Categories := (decodeStrings a.fields.Categories a.staleCategories m.2).1 },
      staleCategories := (decodeStrings a.fields.Categories a.staleCategories m.2).2 }
  | some "Link" => { a with fields := { a.fields with Link := decodeString a.fields.Link m.2 } }
  | some "PublishedParsed" =>
    { a with fields :=
        { a.fields with PublishedParsed := decodeString a.fields.PublishedParsed m.2 } }
  | some "URL" => { a with fields := { a.fields with URL := decodeString a.fields.URL m.2 } }
  | _ => a

/-- Decoding into an `Article`. -/
def decodeArticle (dst : ArticleSlot) : Value → ArticleSlot
  | .object ms => ms.foldl decodeArticleField dst
  | _ => dst

/-- The elements of an array decoded into a `[]Article` whose backing array
holds `backing`: element `i` is decoded into what the array holds at `i`, and
into the zero value once the array is used up and grown. -/
def decodeArticleElems : List ArticleSlot → List Value → List ArticleSlot
  | _, [] => []
  | [], v :: vs => decodeArticle {} v :: decodeArticleElems [] vs
  | o :: os, v :: vs => decodeArticle o v :: decodeArticleElems os vs

/-- Decoding into a `[]Article`, as `decodeStrings` does for strings: `stale`
is what the backing array holds behind the elements of `dst`. -/
def decodeArticles (dst : Option (List ArticleSlot)) (stale : List ArticleSlot) :
    Value → Option (List ArticleSlot) × List ArticleSlot
  | .array [] => (some [], [])
  | .array (v :: vs) =>
    (some (decodeArticleElems (dst.getD [] ++ stale) (v :: vs)),
      (dst.getD [] ++ stale).drop (v :: vs).length)
  | .null => (none, [])
  | _ => (dst, stale)

/-- The exported fields of `Feed`. -/
def feedFields : List String := ["Title", "Description", "Link", "Items"]

/-- A `Feed` in memory while `json.Unmarshal` decodes into it: its fields, the
items as they lie in memory, and the articles the backing array of `Items`
holds behind the slice. -/
structure FeedSlot where
  Title : String := ""
  Description : String := ""
  Link : String := ""
  Items : Option (List ArticleSlot) := none
  staleItems : List ArticleSlot := []
  deriving DecidableEq, Repr

/-- A `Feed` as the caller hands it to `json.Unmarshal`: slices without spare
capacity. -/
def FeedSlot.ofFeed (f : Feed) : FeedSlot :=
  { Title := f.Title, Description := f.Description, Link := f.Link,
    Items := f.Items.map (fun l => l.map (fun a => { fields := a })) }

/-- The `Feed` the caller sees after `json.Unmarshal`. -/
def FeedSlot.toFeed (s : FeedSlot) : Feed :=
  { Title := s.Title, Description := s.Description, Link := s.Link,
    Items := s.Items.map (fun l => l.map ArticleSlot.fields) }

/-- One member of an object decoded into a `Feed`. -/
def decodeFeedField (f : FeedSlot) (m : List Char × Value) : FeedSlot :=
  match findField feedFields m.1 with
  | some "Title" => { f with Title := decodeString f.Title m.2 }
  | some "Description" => { f with Description := decodeString f.Description m.2 }
  | some "Link" => { f with Link := decodeString f.Link m.2 }
  | some "Items" =>
    { f with
      Items := (decodeArticles f.Items f.staleItems m.2).1,
      staleItems := (decodeArticles f.Items f.staleItems m.2).2 }
  | _ => f

/-- Decoding into a `Feed`. -/
def decodeFeed (dst : FeedSlot) : Value → FeedSlot
  | .object ms => ms.foldl decodeFeedField dst
  | _ => dst

/-- One member of an object decoded into a `token`. -/
def decodeTokenField (t : token) (m : List Char × Value) : token :=
  match findField ["Token"] m.1 with
  | some _ => { t with Token := decodeString t.Token m.2 }
  | none => t

/-- Decoding into a `token`. -/
def decodeToken (dst : token) : Value → token
  | .object ms => ms.foldl decodeTokenField dst
  | _ => dst

/-- The effect of `json.Unmarshal(data, res)` on a `*Feed`, the returned error
dropped as every caller drops it: data that is not one well-formed JSON value
leaves `res` untouched.  The slices of `res` are taken to have no spare
capacity, as those of the fresh `&Feed{}` every caller passes. -/
def unmarshalFeed (data : String) (res : Feed) : Feed :=
  match parse data.data with
  | some v => (decodeFeed (FeedSlot.ofFeed res) v).toFeed
  | none => res

/-- The effect of `json.Unmarshal(body, &tok)` on a `token`. -/
def unmarshalToken (data : String) (tok : token) : token :=
  match parse data.data with
  | some v => decodeToken tok v
  | none => tok

end JSON

/-! ## The world around the server -/

/-- The ways a goroutine of the server panics. -/
inductive Panic where
  /-- `runtime error: index out of range`, raised by `res.Items[id]`. -/
  | indexOutOfRange (index : Int) (len : Nat)
  /-- `panic(err)` after `client.Do(req)` returned an error. -/
  | clientDo
  /-- `invalid memory address or nil pointer dereference`. -/
  | nilDereference
  deriving DecidableEq, Repr

/-- What `client.Do(req)` yields: an error, or a response with its `Status`
text, such as `200 OK`. -/
inductive OracleReply where
  | failed
  | response (status : String)
  deriving DecidableEq, Repr

/-- The state of an `http.ResponseWriter`: the status code once the header has
been written, the header map and the body written so far. -/
structure ResponseWriter where
  status : Option Nat := none
  header : List (String × String) := []
  body : String := ""
  deriving DecidableEq, Repr

/-- The method `w.WriteHeader(code)`; a second call changes nothing. -/
def ResponseWriter.WriteHeader (w : ResponseWriter) (code : Nat) : ResponseWriter :=
  match w.status with
  | some _ => w
  | none => { w with status := some code }

/-- The method `w.Write(b)`: writes the header with status 200 if it has not
been written, then appends to the body. -/
def ResponseWriter.Write (w : ResponseWriter) (b : String) : ResponseWriter :=
  let w1 := w.WriteHeader 200
  { w1 with body := w1.body ++ b }

/-- The call `w.Header().Set(key, value)`; without effect on the response once
the header has been written. -/
def ResponseWriter.SetHeader (w : ResponseWriter) (key value : String) : ResponseWriter :=
  match w.status with
  | some _ => w
  | none => { w with header := (key, value) :: w.header.filter (fun kv => kv.1 ≠ key) }

/-- A request as a handler sees it: the bytes `ioutil.ReadAll(r.Body)` returns
and the route variables `mux.Vars(r)` (the empty string for an absent key). -/
structure Request where
  body : String
  vars : String → String

/-- What the handlers read: the files of the working directory as
`ioutil.ReadFile` sees them (`none` when the read fails, as for a missing
file), the token oracle at `localhost:9000/checkToken` as a function of the
body posted to it, and the global `feeds` (`none` when the slice is nil, as
after a registry file that holds the YAML `null`). -/
structure World where
  files : String → Option String
  oracle : String → OracleReply
  feeds : Option (List FeedRegistry)

/-- The call `ioutil.ReadFile(name)` with the error dropped: no bytes when the
read fails. -/
def ReadFile (files : String → Option String) (name : String) : String :=
  match files name with
  | some b => b
  | none => ""

deriving instance DecidableEq for Except

/-- One run of a handler: the files it read, in order, and either the panic
that ended it or the response it wrote. -/
structure Exchange where
  reads : List String
  result : Except Panic ResponseWriter
  deriving DecidableEq

/-! ## main.go: the access gate -/

/-- The request body `js` that `verifyToken` builds (line 301): the token
pasted between two constant pieces of text. -/
def verifyTokenBody (token : String) : String :=
  "\x7b\"Token\":\"" ++ token ++ "\"\x7d"

/-- The function `verifyToken`.  `http.NewRequest` cannot fail on the constant
method and URL; an error of `client.Do` panics; the token is valid exactly when
the status text of the response is `200 OK`. -/
def verifyToken (oracle : String → OracleReply) (token : String) : Except Panic Bool :=
  let js := verifyTokenBody token
  match oracle js with
  | .failed => .error .clientDo
  | .response status => if status = "200 OK" then .ok true else .ok false

/-! ## main.go: the handlers -/

/-- The handler `getFeed`. -/
def getFeed (w : World) (r : Request) : Exchange :=
  let body := r.body
  let tok := JSON.unmarshalToken body {}
  match verifyToken w.oracle tok.Token with
  | .error p => ⟨[], .error p⟩
  | .ok false =>
    ⟨[], .ok ((({} : ResponseWriter).WriteHeader 403).Write "403 - Forbidden")⟩
  | .ok true =>
    let name := r.vars "name"
    let feed := ReadFile w.files name
    ⟨[name], .ok ((({} : ResponseWriter).SetHeader "Content-Type" "application/json").Write feed)⟩

/-- The handler `getArticle`. -/
def getArticle (w : World) (r : Request) : Exchange :=
  let body := r.body
  let tok := JSON.unmarshalToken body {}
  match verifyToken w.oracle tok.Token with
  | .error p => ⟨[], .error p⟩
  | .ok false =>
    ⟨[], .ok ((({} : ResponseWriter).WriteHeader 403).Write "403 - Forbidden")⟩
  | .ok true =>
    let id := (Strconv.Atoi (r.vars "id")).1
    let name := r.vars "name"
    let feed := ReadFile w.files name
    let res := JSON.unmarshalFeed feed {}
    let items := res.Items.getD []
    if id < 0 ∨ (items.length : Int) ≤ id then
      ⟨[name], .error (.indexOutOfRange id items.length)⟩
    else
      let article := items.getD id.toNat {}
      let js := JSON.marshalArticle article
      ⟨[name], .ok ((({} : ResponseWriter).SetHeader "Content-Type" "application/json").Write js)⟩

/-- The handler `getFeeds`. -/
def getFeeds (w : World) (r : Request) : Exchange :=
  let body := r.body
  let tok := JSON.unmarshalToken body {}
  match verifyToken w.oracle tok.Token with
  | .error p => ⟨[], .error p⟩
  | .ok false =>
    ⟨[], .ok ((({} : ResponseWriter).WriteHeader 403).Write "403 - Forbidden")⟩
  | .ok true =>
    let js := JSON.marshalFeeds w.feeds
    ⟨[], .ok ((({} : ResponseWriter).SetHeader "Content-Type" "application/json").Write js)⟩

/-! ## main.go: the refresh pass -/

/-- A `*gofeed.Feed`.  The pass looks at it only through `json.Marshal(cont)`,
so the value is given by the bytes that call returns (no bytes when it
fails). -/
structure GoFeed where
  json : String
  deriving DecidableEq, Repr

/-- The pair `httpresponse, err` that `http.Get` returns.  The response is
given by the bytes `ioutil.ReadAll(httpresponse.Body)` reads from it, `none`
being the nil response.  A transport error comes with a nil response; a failed
redirect comes with an error and a response whose body is closed, from which
no bytes are read. -/
structure GetResult where
  response : Option String
  err : Bool
  deriving DecidableEq, Repr

/-- The network as `catchFeeds` uses it: `parser.ParseURL`, `http.Get` and
`parser.ParseString` (`none` for an error of the parser). -/
structure Net where
  ParseURL : String → Option GoFeed
  Get : String → GetResult
  ParseString : String → Option GoFeed

/-- The working directory: the content of each file (`none` when it cannot be
read) and the names `os.Create` can create or truncate. -/
structure Disk where
  files : String → Option String
  creatable : String → Bool

/-- The call `os.Create(name)`: the open file, named by its path, and the disk
with that file emptied; a nil file and the disk unchanged on error. -/
def Disk.Create (d : Disk) (name : String) : Option String × Disk :=
  if d.creatable name then
    (some name, { d with files := fun n => if n = name then some "" else d.files n })
  else (none, d)

/-- The call `f.Write(b)`: appends to the file; on a nil file it returns an
error and writes nothing. -/
def Disk.Write (d : Disk) (f : Option String) (b : String) : Disk :=
  match f with
  | some name =>
    { d with files := fun n => if n = name then some (ReadFile d.files n ++ b) else d.files n }
  | none => d

/-- What a pass records besides the files: the calls of the logger and the
sleep. -/
inductive Event where
  | notice (msg : String)
  | error (msg : String)
  | info (msg : String)
  | sleep (seconds : Nat)
  deriving DecidableEq, Repr

/-- The state of a pass: the disk, the events so far and the panic that ended
the pass, if any. -/
structure Refresh where
  disk : Disk
  events : List Event
  panicked : Option Panic

/-- The loop of `catchFeeds` over the entries still to visit. -/
def catchFeedsLoop (net : Net) : List FeedRegistry → Disk → List Event → Refresh
  | [], d, ev => ⟨d, ev, none⟩
  | entry :: rest, d, ev =>
    match net.ParseURL entry.URL with
    | none =>
      let ev1 := ev ++ [Event.error "Connection could not be established. Parser returned error:",
        Event.sleep 20, Event.info "Trying alternative"]
      let httpresponse := net.Get entry.URL
      let ev2 :=
        if httpresponse.err then
          ev1 ++ [Event.error "Connection could not be established again. Parser returned error:"]
        else ev1
      -- `defer httpresponse.Body.Close()` reads the field `Body` of the response
      match httpresponse.response with
      | none => ⟨d, ev2, some .nilDereference⟩
      | some XMLString =>
        match net.ParseString XMLString with
        | none =>
          catchFeedsLoop net rest d
            (ev2 ++ [Event.error "Connection could not be established again. Parser returned error:"])
        | some cont =>
          let (f, d1) := d.Create entry.Name
          let js := cont.json
          let res := JSON.unmarshalFeed js {}
          let save := JSON.marshalFeed res
          catchFeedsLoop net rest (d1.Write f save) ev2
    | some cont =>
      let (f, d1) := d.Create entry.Name
      let js := cont.json
      let res := JSON.unmarshalFeed js {}
      let save := JSON.marshalFeed res
      catchFeedsLoop net rest (d1.Write f save) ev

/-- The function `catchFeeds`: one pass over the entries of the global `feeds`
(none when the slice is nil). -/
def catchFeeds (net : Net) (feeds : List FeedRegistry) (d : Disk) : Refresh :=
  catchFeedsLoop net feeds d [Event.notice "Routine Background Task: Catching Feeds"]

/-! ## Sample data -/

/-- A feed with one article. -/
def sampleFeed : Feed :=
  { Title := "News", Link := "http://x", Items := some [{ Title := "First" }] }

/-- An oracle that accepts the token `secret` and rejects every other body. -/
def sampleOracle (body : String) : OracleReply :=
  if body = verifyTokenBody "secret" then .response "200 OK" else .response "403 Forbidden"

/-- A server whose cache holds `sampleFeed` under the name `A` and nothing
else. -/
def sampleWorld : World where
  files := fun n => if n = "A" then some (JSON.marshalFeed sampleFeed) else none
  oracle := sampleOracle
  feeds := some [{ Name := "A", URL := "http://x" }]

/-- The same server with an empty file named `missing` besides. -/
def sampleWorldEmptyFile : World where
  files := fun n =>
    if n = "A" then some (JSON.marshalFeed sampleFeed)
    else if n = "missing" then some "" else none
  oracle := sampleOracle
  feeds := some [{ Name := "A", URL := "http://x" }]

/-- A request with the given body for the feed `name` and the article `id`. -/
def sampleRequest (body name id : String) : Request where
  body := body
  vars := fun k => if k = "name" then name else if k = "id" then id else ""

/-- The body that carries the token `secret`. -/
def secretBody : String := "\x7b\"Token\":\"secret\"\x7d"

/-- A network on which the structured fetch of `http://a` fails and its plain
download succeeds, the structured fetch of `http://b` succeeds, and nothing
else can be reached. -/
def sampleNet : Net where
  ParseURL := fun u => if u = "http://b" then some ⟨"\x7b\"title\":\"B\"\x7d"⟩ else none
  Get := fun u => if u = "http://a" then ⟨some "<rss>a</rss>", false⟩ else ⟨none, true⟩
  ParseString := fun b =>
    if b = "<rss>a</rss>" then some ⟨"\x7b\"title\":\"A\",\"items\":[]\x7d"⟩ else none

/-- An empty working directory in which every name can be created. -/
def emptyDisk : Disk where
  files := fun _ => none
  creatable := fun _ => true

/-- An empty working directory in which no file can be created. -/
def readOnlyDisk : Disk where
  files := fun _ => none
  creatable := fun _ => false

/-! ## Theorems: encoding/json reads back what it writes -/

namespace JSON

theorem getu4_hexDigit : ∀ n, n < 128 →
    getu4 '0' '0' (hexDigit (n / 16)) (hexDigit (n % 16)) = some n := by
  decide

theorem scanString_dq (f : Nat) (X : List Char) : scanString (f + 1) (dq :: X) = some ([], X) := by
  simp [scanString]

theorem scanString_plain (f : Nat) (c : Char) (X : List Char) (h1 : c ≠ dq) (h2 : c ≠ bs)
    (h3 : ¬ c.toNat < 32) : scanString (f + 1) (c :: X) = pushChar c (scanString f X) := by
  simp [scanString, h1, h2, h3]

theorem scanString_escapeChar (f : Nat) (c : Char) (X : List Char) :
    scanString (f + 1) (escapeChar c ++ X) = pushChar c (scanString f X) := by
  unfold escapeChar
  split_ifs with h1 h2 h3 h4 h5 h6 h7 h8 h9
  · rcases h1 with h | h <;> subst h <;> rfl
  · have : c = Char.ofNat 8 := by rw [← h2, Char.ofNat_toNat]
    subst this; rfl
  · have : c = Char.ofNat 12 := by rw [← h3, Char.ofNat_toNat]
    subst this; rfl
  · have : c = Char.ofNat 10 := by rw [← h4, Char.ofNat_toNat]
    subst this; rfl
  · have : c = Char.ofNat 13 := by rw [← h5, Char.ofNat_toNat]
    subst this; rfl
  · have : c = Char.ofNat 9 := by rw [← h6, Char.ofNat_toNat]
    subst this; rfl
  · have hn : c.toNat < 128 := by
      rcases h7 with h | h | h | h
      · omega
      · subst h; decide
      · subst h; decide
      · subst h; decide
    have hs : isSurrogate c.toNat = false := by
      simp only [isSurrogate, Bool.and_eq_false_imp, decide_eq_true_eq, decide_eq_false_iff_not]
      omega
    have hb : bs ≠ dq := by decide
    have hu1 : ('u' : Char) ≠ dq := by decide
    have hu2 : ('u' : Char) ≠ bs := by decide
    simp [scanString, hb, hu1, hu2, getu4_hexDigit _ hn, hs, Char.ofNat_toNat]
  · have : c = Char.ofNat 0x2028 := by rw [← h8, Char.ofNat_toNat]
    subst this; rfl
  · have : c = Char.ofNat 0x2029 := by rw [← h9, Char.ofNat_toNat]
    subst this; rfl
  · push_neg at h1
    exact scanString_plain f c X h1.1 h1.2 (fun h => h7 (Or.inl h))

theorem length_le_escape (s : List Char) : s.length ≤ (escape s).length := by
  induction s with
  | nil => simp [escape]
  | cons c cs ih =>
    have : 1 ≤ (escapeChar c).length := by
      unfold escapeChar
      split_ifs <;> simp
    simp only [escape, List.length_cons, List.length_append]
    omega

theorem scanString_escape (s : List Char) : ∀ (f : Nat) (X : List Char), s.length + 1 ≤ f →
    scanString f (escape s ++ dq :: X) = some (s, X) := by
  induction s with
  | nil =>
    intro f X hf
    obtain ⟨g, rfl⟩ : ∃ g, f = g + 1 := ⟨f - 1, by omega⟩
    simpa [escape] using scanString_dq g X
  | cons c cs ih =>
    intro f X hf
    obtain ⟨g, rfl⟩ : ∃ g, f = g + 1 := ⟨f - 1, by omega⟩
    have hg : cs.length + 1 ≤ g := by simpa using hf
    simp only [escape, List.append_assoc]
    rw [scanString_escapeChar, ih g X hg]
    rfl

theorem scanString_quote_tail (s X : List Char) :
    scanString ((escape s ++ dq :: X).length + 1) (escape s ++ dq :: X) = some (s, X) := by
  apply scanString_escape
  have := length_le_escape s
  simp only [List.length_append, List.length_cons]
  omega

theorem roundTrips_string (s : List Char) (k : Nat) : RoundTrips (.string s) k := by
  intro fuel room X hf _
  obtain ⟨g, rfl⟩ : ∃ g, fuel = g + 1 := ⟨fuel - 1, by simp [render, quote] at hf; omega⟩
  have h := scanString_quote_tail s X
  simp only [render, quote, List.cons_append, List.append_assoc, List.singleton_append,
    parseValue, skipSpace]
  have hd : isSpace dq = false := by decide
  simp only [List.length_append, List.length_cons] at h
  simp [hd, h]

theorem roundTrips_null (k : Nat) : RoundTrips .null k := by
  intro fuel room X hf _
  obtain ⟨g, rfl⟩ : ∃ g, fuel = g + 1 := ⟨fuel - 1, by simp [render] at hf; omega⟩
  rfl

theorem starts_string (s : List Char) : Starts (.string s) :=
  ⟨dq, escape s ++ [dq], rfl, by decide, by decide⟩

theorem starts_object (ms : List (List Char × Value)) : Starts (.object ms) :=
  ⟨lbrace, renderMembers ms, rfl, by decide, by decide⟩

theorem parseElems_render (l : List Value) (k : Nat) (hne : l ≠ [])
    (h : ∀ v ∈ l, RoundTrips v k) :
    ∀ (fuel room : Nat) (X : List Char), (renderElems l).length ≤ fuel → k ≤ room →
      parseElems fuel room (renderElems l ++ X) = some (l, X) := by
  induction l with
  | nil => exact absurd rfl hne
  | cons v vs ih =>
    intro fuel room X hf hr
    cases vs with
    | nil =>
      simp only [renderElems, List.length_append, List.length_singleton] at hf
      obtain ⟨g, rfl⟩ : ∃ g, fuel = g + 1 := ⟨fuel - 1, by omega⟩
      have hv := h v (List.mem_cons_self _ _) g room (']' :: X) (by omega) hr
      have hsp : isSpace ']' = false := by decide
      simp [renderElems, parseElems, hv, skipSpace, hsp]
    | cons w ws =>
      simp only [renderElems, List.length_append, List.length_cons] at hf
      obtain ⟨g, rfl⟩ : ∃ g, fuel = g + 1 := ⟨fuel - 1, by omega⟩
      have hv := h v (List.mem_cons_self _ _) g room (',' :: (renderElems (w :: ws) ++ X))
        (by omega) hr
      have hrest := ih (by simp) (fun u hu => h u (List.mem_cons_of_mem _ hu)) g room X
        (by omega) hr
      have hsp : isSpace ',' = false := by decide
      simp [renderElems, parseElems, hv, skipSpace, hsp, hrest]

theorem roundTrips_array (l : List Value) (k : Nat) (h : ∀ v ∈ l, RoundTrips v k ∧ Starts v) :
    RoundTrips (.array l) (k + 1) := by
  intro fuel room X hf hr
  simp only [render, List.length_cons] at hf
  obtain ⟨g, rfl⟩ : ∃ g, fuel = g + 1 := ⟨fuel - 1, by omega⟩
  have hroom : room ≠ 0 := by omega
  have hb : isSpace '[' = false := by decide
  cases l with
  | nil =>
    have hsp : isSpace ']' = false := by decide
    have h1 : ('[' : Char) ≠ dq := by decide
    have h2 : ('[' : Char) ≠ lbrace := by decide
    simp [render, renderElems, parseValue, skipSpace, hb, hsp, h1, h2, hroom]
  | cons v vs =>
    obtain ⟨c, t, hct, hcs, hcb⟩ := (h v (List.mem_cons_self _ _)).2
    have hp := parseElems_render (v :: vs) k (by simp) (fun u hu => (h u hu).1) g (room - 1) X
      (by omega) (by omega)
    have hstart : ∃ t1, renderElems (v :: vs) ++ X = c :: t1 := by
      cases vs with
      | nil => exact ⟨t ++ ']' :: X, by simp [renderElems, hct]⟩
      | cons w ws => exact ⟨t ++ ',' :: (renderElems (w :: ws) ++ X), by simp [renderElems, hct]⟩
    obtain ⟨t1, ht1⟩ := hstart
    rw [ht1] at hp
    have h1 : ('[' : Char) ≠ dq := by decide
    have h2 : ('[' : Char) ≠ lbrace := by decide
    have e : render (.array (v :: vs)) ++ X = '[' :: c :: t1 := by
      simp only [render, List.cons_append, ht1]
    rw [e]
    simp [parseValue, skipSpace, hb, hcs, h1, h2, hcb, hp, hroom]

theorem parseMembers_render (l : List (List Char × Value)) (k : Nat) (hne : l ≠ [])
    (h : ∀ m ∈ l, RoundTrips m.2 k) :
    ∀ (fuel room : Nat) (X : List Char), (renderMembers l).length ≤ fuel → k ≤ room →
      parseMembers fuel room (renderMembers l ++ X) = some (l, X) := by
  induction l with
  | nil => exact absurd rfl hne
  | cons m ms ih =>
    intro fuel room X hf hr
    obtain ⟨key, v⟩ := m
    have hd : isSpace dq = false := by decide
    have hc : isSpace ':' = false := by decide
    cases ms with
    | nil =>
      simp only [renderMembers, List.length_append, List.length_cons, List.length_singleton] at hf
      obtain ⟨g, rfl⟩ : ∃ g, fuel = g + 1 := ⟨fuel - 1, by omega⟩
      have hv := h (key, v) (List.mem_cons_self _ _) g room (rbrace :: X) (by simp only; omega) hr
      have hk := scanString_quote_tail key (':' :: (render v ++ rbrace :: X))
      simp only [List.length_append, List.length_cons] at hk
      have hsp : isSpace rbrace = false := by decide
      have hne1 : rbrace ≠ ',' := by decide
      simp [renderMembers, quote, parseMembers, skipSpace, hd, hc, hk, hv, hsp, hne1]
    | cons w ws =>
      simp only [renderMembers, List.length_append, List.length_cons] at hf
      obtain ⟨g, rfl⟩ : ∃ g, fuel = g + 1 := ⟨fuel - 1, by omega⟩
      have hv := h (key, v) (List.mem_cons_self _ _) g room
        (',' :: (renderMembers (w :: ws) ++ X)) (by simp only; omega) hr
      have hk := scanString_quote_tail key
        (':' :: (render v ++ ',' :: (renderMembers (w :: ws) ++ X)))
      simp only [List.length_append, List.length_cons] at hk
      have hrest := ih (by simp) (fun u hu => h u (List.mem_cons_of_mem _ hu)) g room X
        (by omega) hr
      have hsp : isSpace ',' = false := by decide
      simp [renderMembers, quote, parseMembers, skipSpace, hd, hc, hk, hv, hsp, hrest]

theorem roundTrips_object (l : List (List Char × Value)) (k : Nat)
    (h : ∀ m ∈ l, RoundTrips m.2 k) : RoundTrips (.object l) (k + 1) := by
  intro fuel room X hf hr
  simp only [render, List.length_cons] at hf
  obtain ⟨g, rfl⟩ : ∃ g, fuel = g + 1 := ⟨fuel - 1, by omega⟩
  have hroom : room ≠ 0 := by omega
  have hb : isSpace lbrace = false := by decide
  have h1 : lbrace ≠ dq := by decide
  cases l with
  | nil =>
    have hsp : isSpace rbrace = false := by decide
    simp [render, renderMembers, parseValue, skipSpace, hb, hsp, h1, hroom]
  | cons m ms =>
    obtain ⟨key, v⟩ := m
    have hp := parseMembers_render ((key, v) :: ms) k (by simp) h g (room - 1) X
      (by omega) (by omega)
    have hstart : ∃ t1, renderMembers ((key, v) :: ms) ++ X = dq :: t1 := by
      cases ms with
      | nil => exact ⟨_, by simp [renderMembers, quote]; rfl⟩
      | cons w ws => exact ⟨_, by simp [renderMembers, quote]; rfl⟩
    obtain ⟨t1, ht1⟩ := hstart
    rw [ht1] at hp
    have hd : isSpace dq = false := by decide
    have h2 : dq ≠ rbrace := by decide
    have e : render (.object ((key, v) :: ms)) ++ X = lbrace :: dq :: t1 := by
      simp only [render, List.cons_append, ht1]
    rw [e]
    simp [parseValue, skipSpace, hb, hd, h1, h2, hp, hroom]

theorem parse_render (v : Value) (k : Nat) (h : RoundTrips v k) (hk : k ≤ maxNestingDepth) :
    parse (render v) = some v := by
  have := h ((render v).length + 1) maxNestingDepth [] (by omega) hk
  simp only [List.append_nil] at this
  simp [parse, this, skipSpace]

theorem roundTrips_authorInfoJSON (a : AuthorInfo) : RoundTrips (authorInfoJSON a) 1 := by
  apply roundTrips_object _ 0
  intro m hm
  simp only [List.mem_singleton] at hm
  subst hm
  exact roundTrips_string _ _

theorem roundTrips_stringsJSON (c : Option (List String)) : RoundTrips (stringsJSON c) 1 := by
  cases c with
  | none => exact roundTrips_null _
  | some l =>
    apply roundTrips_array _ 0
    intro v hv
    obtain ⟨s, _, rfl⟩ := List.mem_map.mp hv
    exact ⟨roundTrips_string _ _, starts_string _⟩

theorem roundTrips_articleJSON (a : Article) : RoundTrips (articleJSON a) 2 := by
  apply roundTrips_object _ 1
  intro m hm
  simp only [List.mem_cons, List.mem_singleton, List.not_mem_nil, or_false] at hm
  rcases hm with h | h | h | h | h | h | h | h <;> subst h
  · exact roundTrips_string _ _
  · exact roundTrips_string _ _
  · exact roundTrips_string _ _
  · exact roundTrips_authorInfoJSON _
  · exact roundTrips_stringsJSON _
  · exact roundTrips_string _ _
  · exact roundTrips_string _ _
  · exact roundTrips_string _ _

theorem roundTrips_articlesJSON (c : Option (List Article)) : RoundTrips (articlesJSON c) 3 := by
  cases c with
  | none => exact roundTrips_null _
  | some l =>
    apply roundTrips_array _ 2
    intro v hv
    obtain ⟨a, _, rfl⟩ := List.mem_map.mp hv
    exact ⟨roundTrips_articleJSON a, starts_object _⟩

theorem roundTrips_feedJSON (f : Feed) : RoundTrips (feedJSON f) 4 := by
  apply roundTrips_object _ 3
  intro m hm
  simp only [List.mem_cons, List.mem_singleton, List.not_mem_nil, or_false] at hm
  rcases hm with h | h | h | h <;> subst h
  · exact roundTrips_string _ _
  · exact roundTrips_string _ _
  · exact roundTrips_string _ _
  · exact roundTrips_articlesJSON _

theorem decodeAuthorInfo_authorInfoJSON (dst a : AuthorInfo) :
    decodeAuthorInfo dst (authorInfoJSON a) = a := by
  rfl

theorem decodeStringElems_strings (l : List String) :
    ∀ backing : List String,
      decodeStringElems backing (l.map (fun s => Value.string s.data)) = l := by
  induction l with
  | nil => intro backing; cases backing <;> rfl
  | cons s ss ih =>
    intro backing
    cases backing with
    | nil => simp only [List.map_cons, decodeStringElems, ih]; rfl
    | cons o os => simp only [List.map_cons, decodeStringElems, ih]; rfl

theorem decodeStrings_stringsJSON (dst : Option (List String)) (stale : List String)
    (c : Option (List String)) : (decodeStrings dst stale (stringsJSON c)).1 = c := by
  cases c with
  | none => rfl
  | some l =>
    cases l with
    | nil => rfl
    | cons s ss =>
      have h := decodeStringElems_strings (s :: ss) (dst.getD [] ++ stale)
      simp only [List.map_cons] at h
      simp only [stringsJSON, List.map_cons, decodeStrings, h]

theorem decodeString_string (dst s : String) : decodeString dst (.string s.data) = s := by
  rfl

theorem decodeArticle_articleJSON (dst : ArticleSlot) (a : Article) :
    (decodeArticle dst (articleJSON a)).fields = a := by
  have e1 : ∀ (x : ArticleSlot) v, decodeArticleField x ("Title".data, v)
      = { x with fields := { x.fields with Title := decodeString x.fields.Title v } } :=
    fun _ _ => rfl
  have e2 : ∀ (x : ArticleSlot) v, decodeArticleField x ("Description".data, v)
      = { x with fields := { x.fields with Description := decodeString x.fields.Description v } } :=
    fun _ _ => rfl
  have e3 : ∀ (x : ArticleSlot) v, decodeArticleField x ("Content".data, v)
      = { x with fields := { x.fields with Content := decodeString x.fields.Content v } } :=
    fun _ _ => rfl
  have e4 : ∀ (x : ArticleSlot) v, decodeArticleField x ("Author".data, v)
      = { x with fields := { x.fields with Author := decodeAuthorInfo x.fields.Author v } } :=
    fun _ _ => rfl
  have e5 : ∀ (x : ArticleSlot) v, decodeArticleField x ("Categories".data, v)
      = { fields := { x.fields with
            Categories := (decodeStrings x.fields.Categories x.staleCategories v).1 },
          staleCategories := (decodeStrings x.fields.Categories x.staleCategories v).2 } :=
    fun _ _ => rfl
  have e6 : ∀ (x : ArticleSlot) v, decodeArticleField x ("Link".data, v)
      = { x with fields := { x.fields with Link := decodeString x.fields.Link v } } :=
    fun _ _ => rfl
  have e7 : ∀ (x : ArticleSlot) v, decodeArticleField x ("PublishedParsed".data, v)
      = { x with fields :=
            { x.fields with PublishedParsed := decodeString x.fields.PublishedParsed v } } :=
    fun _ _ => rfl
  have e8 : ∀ (x : ArticleSlot) v, decodeArticleField x ("URL".data, v)
      = { x with fields := { x.fields with URL := decodeString x.fields.URL v } } :=
    fun _ _ => rfl
  simp only [decodeArticle, articleJSON, List.foldl, e1, e2, e3, e4, e5, e6, e7, e8,
    decodeString_string, decodeStrings_stringsJSON, decodeAuthorInfo_authorInfoJSON]

theorem decodeArticleElems_articles (l : List Article) :
    ∀ backing : List ArticleSlot,
      (decodeArticleElems backing (l.map articleJSON)).map ArticleSlot.fields = l := by
  induction l with
  | nil => intro backing; cases backing <;> rfl
  | cons a as ih =>
    intro backing
    cases backing with
    | nil =>
      simp only [List.map_cons, decodeArticleElems, ih, decodeArticle_articleJSON]
    | cons o os =>
      simp only [List.map_cons, decodeArticleElems, ih, decodeArticle_articleJSON]

theorem decodeArticles_articlesJSON (dst : Option (List ArticleSlot)) (stale : List ArticleSlot)
    (c : Option (List Article)) :
    (decodeArticles dst stale (articlesJSON c)).1.map (fun l => l.map ArticleSlot.fields) = c := by
  cases c with
  | none => rfl
  | some l =>
    cases l with
    | nil => rfl
    | cons a as =>
      have h := decodeArticleElems_articles (a :: as) (dst.getD [] ++ stale)
      simp only [List.map_cons] at h
      simp only [articlesJSON, List.map_cons, decodeArticles, Option.map_some', h]

theorem decodeFeed_feedJSON (dst : FeedSlot) (f : Feed) :
    (decodeFeed dst (feedJSON f)).toFeed = f := by
  have e1 : ∀ (x : FeedSlot) v, decodeFeedField x ("Title".data, v)
      = { x with Title := decodeString x.Title v } := fun _ _ => rfl
  have e2 : ∀ (x : FeedSlot) v, decodeFeedField x ("Description".data, v)
      = { x with Description := decodeString x.Description v } := fun _ _ => rfl
  have e3 : ∀ (x : FeedSlot) v, decodeFeedField x ("Link".data, v)
      = { x with Link := decodeString x.Link v } := fun _ _ => rfl
  have e4 : ∀ (x : FeedSlot) v, decodeFeedField x ("Items".data, v)
      = { x with
          Items := (decodeArticles x.Items x.staleItems v).1,
          staleItems := (decodeArticles x.Items x.staleItems v).2 } := fun _ _ => rfl
  simp only [decodeFeed, feedJSON, List.foldl, e1, e2, e3, e4, FeedSlot.toFeed,
    decodeString_string, decodeArticles_articlesJSON]

theorem unmarshalFeed_marshalFeed (f dst : Feed) : unmarshalFeed (marshalFeed f) dst = f := by
  simp only [unmarshalFeed, marshalFeed,
    parse_render _ 4 (roundTrips_feedJSON f) (by decide), decodeFeed_feedJSON]

end JSON

theorem scanString_plain_run (t : List Char)
    (h : ∀ c ∈ t, c ≠ JSON.dq ∧ c ≠ JSON.bs ∧ ¬ c.toNat < 32) :
    ∀ (f : Nat) (X : List Char), t.length + 1 ≤ f →
      JSON.scanString f (t ++ JSON.dq :: X) = some (t, X) := by
  induction t with
  | nil =>
    intro f X hf
    obtain ⟨g, rfl⟩ : ∃ g, f = g + 1 := ⟨f - 1, by omega⟩
    exact JSON.scanString_dq g X
  | cons c cs ih =>
    intro f X hf
    obtain ⟨g, rfl⟩ : ∃ g, f = g + 1 := ⟨f - 1, by omega⟩
    obtain ⟨h1, h2, h3⟩ := h c (List.mem_cons_self _ _)
    have hg : cs.length + 1 ≤ g := by simpa using hf
    rw [List.cons_append, JSON.scanString_plain g c _ h1 h2 h3,
      ih (fun x hx => h x (List.mem_cons_of_mem _ hx)) g X hg]
    rfl

theorem parseValue_plain_string (t : List Char)
    (h : ∀ c ∈ t, c ≠ JSON.dq ∧ c ≠ JSON.bs ∧ ¬ c.toNat < 32) (f room : Nat) (X : List Char) :
    JSON.parseValue (f + 1) room (JSON.dq :: (t ++ JSON.dq :: X)) = some (.string t, X) := by
  have d2 : JSON.isSpace JSON.dq = false := by decide
  have hv := scanString_plain_run t h ((t ++ JSON.dq :: X).length + 1) X
    (by simp only [List.length_append, List.length_cons]; omega)
  rw [JSON.parseValue]
  simp only [JSON.skipSpace, d2, Bool.false_eq_true, if_false, if_true, hv]

theorem parseMembers_token (t : List Char)
    (h : ∀ c ∈ t, c ≠ JSON.dq ∧ c ≠ JSON.bs ∧ ¬ c.toNat < 32) (f room : Nat) (X : List Char) :
    JSON.parseMembers (f + 2) room
        (JSON.dq :: ("Token".data ++ JSON.dq :: ':' :: JSON.dq :: (t ++ JSON.dq :: JSON.rbrace :: X)))
      = some ([("Token".data, .string t)], X) := by
  have d2 : JSON.isSpace JSON.dq = false := by decide
  have d3 : JSON.isSpace ':' = false := by decide
  have d4 : JSON.isSpace JSON.rbrace = false := by decide
  have d7 : JSON.rbrace ≠ ',' := by decide
  have hk := scanString_plain_run "Token".data (by decide)
    (("Token".data ++ JSON.dq :: ':' :: JSON.dq :: (t ++ JSON.dq :: JSON.rbrace :: X)).length + 1)
    (':' :: JSON.dq :: (t ++ JSON.dq :: JSON.rbrace :: X))
    (by simp only [List.length_append, List.length_cons]; omega)
  rw [JSON.parseMembers]
  simp only [JSON.skipSpace, d2, d3, d4, Bool.false_eq_true, if_false, if_true, hk,
    parseValue_plain_string t h f room (JSON.rbrace :: X), d7]

/-! ## Theorems: strconv -/

theorem parseInt_syntax_value (s : List Char)
    (h : (Strconv.ParseInt s).2 = some .ErrSyntax) : (Strconv.ParseInt s).1 = 0 := by
  cases s with
  | nil => rfl
  | cons c cs =>
    simp only [Strconv.ParseInt] at h ⊢
    generalize Strconv.ParseUint (if c = '+' ∨ c = '-' then cs else c :: cs) = p at h ⊢
    obtain ⟨un, err⟩ := p
    cases err with
    | none =>
      simp only at h
      split_ifs at h <;> simp at h
    | some e =>
      cases e with
      | ErrSyntax => rfl
      | ErrRange =>
        simp only at h
        split_ifs at h <;> simp at h

theorem atoi_syntax_value (s : String)
    (h : (Strconv.Atoi s).2 = some .ErrSyntax) : (Strconv.Atoi s).1 = 0 := by
  unfold Strconv.Atoi at h ⊢
  by_cases h1 : 0 < s.utf8ByteSize ∧ s.utf8ByteSize < 19
  · rw [if_pos h1] at h ⊢
    cases hd : s.data with
    | nil => simp only [hd]
    | cons c cs =>
      simp only [hd] at h ⊢
      by_cases h2 : (if c = '-' ∨ c = '+' then cs else c :: cs) = []
      · rw [if_pos h2]
      · rw [if_neg h2] at h ⊢
        generalize Strconv.atoiLoop (if c = '-' ∨ c = '+' then cs else c :: cs) 0 = q at h ⊢
        cases q with
        | none => rfl
        | some n => simp at h
  · rw [if_neg h1] at h ⊢
    exact parseInt_syntax_value _ h

theorem atoiLoop_none (l : List Char) : ∀ n, l.all JSON.isDigit = false → Strconv.atoiLoop l n = none := by
  induction l with
  | nil => intro n h; simp at h
  | cons c cs ih =>
    intro n h
    simp only [Strconv.atoiLoop]
    by_cases hc : JSON.isDigit c = false
    · rw [if_pos hc]
    · rw [if_neg hc]
      apply ih
      simp only [List.all_cons, Bool.and_eq_false_imp] at h
      exact h (by simpa using hc)

theorem utf8ByteSize_pos_of_cons (s : String) (c : Char) (cs : List Char) (h : s.data = c :: cs) :
    0 < s.utf8ByteSize := by
  obtain ⟨l⟩ := s
  simp only at h
  subst h
  have := Char.utf8Size_pos c
  simp only [String.utf8ByteSize, String.utf8ByteSize.go]
  omega

/-- Every id of fewer than 19 bytes that is no decimal integer is a syntax
error for `Atoi`. -/
theorem atoi_short_not_decimal (s : String) (hlen : s.utf8ByteSize < 19)
    (hnd : Strconv.IsDecimalInteger s = false) : (Strconv.Atoi s).2 = some .ErrSyntax := by
  unfold Strconv.Atoi
  unfold Strconv.IsDecimalInteger at hnd
  cases hd : s.data with
  | nil =>
    by_cases h1 : 0 < s.utf8ByteSize ∧ s.utf8ByteSize < 19
    · rw [if_pos h1]
    · rw [if_neg h1]; rfl
  | cons c cs =>
    have hpos := utf8ByteSize_pos_of_cons s c cs hd
    rw [if_pos ⟨hpos, hlen⟩]
    simp only [hd] at hnd ⊢
    by_cases hs : c = '-' ∨ c = '+'
    · rw [if_pos hs] at hnd ⊢
      by_cases he : cs = []
      · rw [if_pos he]
      · rw [if_neg he]
        have : cs.all JSON.isDigit = false := by simpa [he] using hnd
        rw [atoiLoop_none cs 0 this]
    · rw [if_neg hs] at hnd ⊢
      rw [if_neg (by simp)]
      rw [atoiLoop_none (c :: cs) 0 hnd]

/-! ## Theorems: the handlers -/

set_option maxRecDepth 100000

/-- Claim C1: for every content of the cache file and every id whose index, as
`strconv.Atoi` reads it, is negative or not below the number of items of the
deserialized feed, an authorized `getArticle` ends in the panic `index out of
range`: the file has been read, nothing is written to the response, so no
article, default or clamped, is returned. -/
theorem getArticle_index_out_of_range (w : World) (r : Request)
    (hauth : verifyToken w.oracle (JSON.unmarshalToken r.body {}).Token = .ok true)
    (hidx : (Strconv.Atoi (r.vars "id")).1 < 0 ∨
      ((((JSON.unmarshalFeed (ReadFile w.files (r.vars "name")) {}).Items.getD []).length : Nat) : Int)
        ≤ (Strconv.Atoi (r.vars "id")).1) :
    getArticle w r = ⟨[r.vars "name"], .error (.indexOutOfRange (Strconv.Atoi (r.vars "id")).1
      ((JSON.unmarshalFeed (ReadFile w.files (r.vars "name")) {}).Items.getD []).length)⟩ := by
  simp only [getArticle, hauth]
  rw [if_pos hidx]

theorem getArticle_index_out_of_range_witness :
    getArticle sampleWorld (sampleRequest secretBody "A" "1")
      = ⟨["A"], .error (.indexOutOfRange 1 1)⟩ :=
  getArticle_index_out_of_range sampleWorld (sampleRequest secretBody "A" "1")
    (by decide) (by decide)

/-- Claim C2: when the cache file deserializes to a feed with the items `items`
and the index is within range, an authorized `getArticle` answers 200 with
the content type `application/json` and the JSON encoding of exactly
`items[index]`. -/
theorem getArticle_in_range (w : World) (r : Request) (items : List Article)
    (hauth : verifyToken w.oracle (JSON.unmarshalToken r.body {}).Token = .ok true)
    (hitems : (JSON.unmarshalFeed (ReadFile w.files (r.vars "name")) {}).Items = some items)
    (h0 : 0 ≤ (Strconv.Atoi (r.vars "id")).1)
    (h1 : (Strconv.Atoi (r.vars "id")).1 < (items.length : Int)) :
    ∃ article, items[(Strconv.Atoi (r.vars "id")).1.toNat]? = some article ∧
      getArticle w r = ⟨[r.vars "name"], .ok
        { status := some 200, header := [("Content-Type", "application/json")],
          body := JSON.marshalArticle article }⟩ := by
  have hlt : (Strconv.Atoi (r.vars "id")).1.toNat < items.length := by omega
  refine ⟨items[(Strconv.Atoi (r.vars "id")).1.toNat], by simp [hlt], ?_⟩
  have hno : ¬ ((Strconv.Atoi (r.vars "id")).1 < 0 ∨
      (items.length : Int) ≤ (Strconv.Atoi (r.vars "id")).1) := by omega
  simp only [getArticle, hauth, hitems, Option.getD_some]
  rw [if_neg hno]
  simp [ResponseWriter.SetHeader, ResponseWriter.Write, ResponseWriter.WriteHeader,
    List.getD_eq_getElem?_getD, hlt]

/-- The request for article 0 of the sample feed is answered with its one
article. -/
theorem getArticle_in_range_witness :
    ∃ article,
      ([{ Title := "First" }] : List Article)[(Strconv.Atoi
          ((sampleRequest secretBody "A" "0").vars "id")).1.toNat]? = some article ∧
      getArticle sampleWorld (sampleRequest secretBody "A" "0")
        = ⟨[(sampleRequest secretBody "A" "0").vars "name"], .ok
            { status := some 200, header := [("Content-Type", "application/json")],
              body := JSON.marshalArticle article }⟩ :=
  getArticle_in_range sampleWorld (sampleRequest secretBody "A" "0") [{ Title := "First" }]
    (by decide) (by decide) (by decide) (by decide)

/-- Claim C3: when `verifyToken` returns false, each of `getFeed`, `getArticle`
and `getFeeds` answers 403 with the body `403 - Forbidden` and nothing else:
no header is set, no file is read, no feed, article or registry data is
written. -/
theorem denied_is_forbidden (w : World) (r : Request)
    (hdeny : verifyToken w.oracle (JSON.unmarshalToken r.body {}).Token = .ok false) :
    getFeed w r = ⟨[], .ok { status := some 403, header := [], body := "403 - Forbidden" }⟩ ∧
    getArticle w r = ⟨[], .ok { status := some 403, header := [], body := "403 - Forbidden" }⟩ ∧
    getFeeds w r = ⟨[], .ok { status := some 403, header := [], body := "403 - Forbidden" }⟩ := by
  refine ⟨?_, ?_, ?_⟩
  · simp only [getFeed, hdeny]; rfl
  · simp only [getArticle, hdeny]; rfl
  · simp only [getFeeds, hdeny]; rfl

/-- A request without a token is refused by all three handlers of the sample
server. -/
theorem denied_is_forbidden_witness :
    getFeed sampleWorld (sampleRequest "" "A" "0")
        = ⟨[], .ok { status := some 403, header := [], body := "403 - Forbidden" }⟩ ∧
    getArticle sampleWorld (sampleRequest "" "A" "0")
        = ⟨[], .ok { status := some 403, header := [], body := "403 - Forbidden" }⟩ ∧
    getFeeds sampleWorld (sampleRequest "" "A" "0")
        = ⟨[], .ok { status := some 403, header := [], body := "403 - Forbidden" }⟩ :=
  denied_is_forbidden sampleWorld (sampleRequest "" "A" "0") (by decide)

/-- Against claim C4 as stated: with an oracle that cannot be reached, the gate
panics on an empty body instead of denying. -/
theorem verifyToken_failed_counterexample :
    verifyToken (fun _ => OracleReply.failed) (JSON.unmarshalToken "" {}).Token
        = .error .clientDo ∧
      verifyToken (fun _ => OracleReply.failed) (JSON.unmarshalToken "" {}).Token
        ≠ .ok false := by
  decide

/-- Claim C4, amended: the token is empty when the body is no well-formed
JSON; the gate allows exactly when the oracle answers the posted body with the
status text `200 OK`, denies exactly when it answers with another status, and
panics exactly when the call to the oracle fails. -/
theorem verifyToken_outcomes (oracle : String → OracleReply) (body : String) :
    (JSON.parse body.data = none → (JSON.unmarshalToken body {}).Token = "") ∧
    (verifyToken oracle (JSON.unmarshalToken body {}).Token = .ok true ↔
      oracle (verifyTokenBody (JSON.unmarshalToken body {}).Token) = .response "200 OK") ∧
    (verifyToken oracle (JSON.unmarshalToken body {}).Token = .ok false ↔
      ∃ s, oracle (verifyTokenBody (JSON.unmarshalToken body {}).Token) = .response s
        ∧ s ≠ "200 OK") ∧
    (verifyToken oracle (JSON.unmarshalToken body {}).Token = .error .clientDo ↔
      oracle (verifyTokenBody (JSON.unmarshalToken body {}).Token) = .failed) := by
  refine ⟨?_, ?_, ?_, ?_⟩
  · intro h
    simp [JSON.unmarshalToken, h]
  all_goals
    simp only [verifyToken]
    cases h : oracle (verifyTokenBody (JSON.unmarshalToken body {}).Token) with
    | failed => simp
    | response s => by_cases hs : s = "200 OK" <;> simp [hs]

/-- Against claim C8 as stated: the answer for a missing file carries no sign
of a failure.  It has the status and the header of the answer for the cached
feed `A`, and it is the very answer given for an empty file of that name. -/
theorem getFeed_missing_counterexample :
    getFeed sampleWorld (sampleRequest secretBody "missing" "")
        = ⟨["missing"], .ok
          { status := some 200, header := [("Content-Type", "application/json")], body := "" }⟩ ∧
      getFeed sampleWorld (sampleRequest secretBody "A" "")
        = ⟨["A"], .ok
          { status := some 200, header := [("Content-Type", "application/json")],
            body := JSON.marshalFeed sampleFeed }⟩ ∧
      getFeed sampleWorld (sampleRequest secretBody "missing" "")
        = getFeed sampleWorldEmptyFile (sampleRequest secretBody "missing" "") := by
  decide

theorem marshalFeed_ne_empty (f : Feed) : JSON.marshalFeed f ≠ "" := by
  intro h
  have := congrArg String.data h
  simp [JSON.marshalFeed, JSON.feedJSON, JSON.render] at this

/-- Claim C8, amended: for a name whose file cannot be read, an authorized
`getFeed` answers 200 with the content type `application/json` and an empty
body, which no serialized feed equals. -/
theorem getFeed_missing (w : World) (r : Request)
    (hauth : verifyToken w.oracle (JSON.unmarshalToken r.body {}).Token = .ok true)
    (hmiss : w.files (r.vars "name") = none) :
    getFeed w r = ⟨[r.vars "name"], .ok
        { status := some 200, header := [("Content-Type", "application/json")], body := "" }⟩ ∧
      ∀ f : Feed, JSON.marshalFeed f ≠ "" := by
  refine ⟨?_, marshalFeed_ne_empty⟩
  simp only [getFeed, hauth, ReadFile, hmiss]
  rfl

theorem getFeed_missing_witness :
    getFeed sampleWorld (sampleRequest secretBody "nothing" "")
        = ⟨["nothing"], .ok
          { status := some 200, header := [("Content-Type", "application/json")], body := "" }⟩ ∧
      ∀ f : Feed, JSON.marshalFeed f ≠ "" :=
  getFeed_missing sampleWorld (sampleRequest secretBody "nothing" "") (by decide) (by decide)

/-- Claim C9, at the failing input: the handlers can extract the token that is
one double quote from a request; the body `verifyToken` posts for it is not
well-formed JSON; and a token that carries a quote can make the body decode to
a different token. -/
theorem verifyTokenBody_not_escaped :
    (JSON.unmarshalToken "\x7b\"Token\":\"\\\"\"\x7d" {}).Token = "\"" ∧
      verifyTokenBody "\"" = "\x7b\"Token\":\"\"\"\x7d" ∧
      JSON.parse (verifyTokenBody "\"").data = none ∧
      (JSON.unmarshalToken (verifyTokenBody "a\",\"Token\":\"b") {}).Token = "b" := by
  refine ⟨by decide, by decide, by rfl, by decide⟩

/-- A token without a double quote, a backslash or a control character reaches
the oracle as the JSON object whose field `Token` is that token. -/
theorem verifyTokenBody_plain (t : String)
    (h : ∀ c ∈ t.data, c ≠ JSON.dq ∧ c ≠ JSON.bs ∧ ¬ c.toNat < 32) :
    (JSON.unmarshalToken (verifyTokenBody t) {}).Token = t := by
  have hbody : (verifyTokenBody t).data
      = JSON.lbrace :: JSON.dq :: ("Token".data ++ JSON.dq :: ':' :: JSON.dq
          :: (t.data ++ JSON.dq :: JSON.rbrace :: [])) := by
    simp only [verifyTokenBody, String.data_append]
    rfl
  have d1 : JSON.isSpace JSON.lbrace = false := by decide
  have d2 : JSON.isSpace JSON.dq = false := by decide
  have d5 : JSON.lbrace ≠ JSON.dq := by decide
  have d6 : JSON.dq ≠ JSON.rbrace := by decide
  have hp : JSON.parse (verifyTokenBody t).data
      = some (.object [("Token".data, .string t.data)]) := by
    rw [hbody]
    have e : (JSON.lbrace :: JSON.dq :: ("Token".data ++ JSON.dq :: ':' :: JSON.dq
          :: (t.data ++ JSON.dq :: JSON.rbrace :: []))).length + 1 = (t.data.length + 10) + 2 + 1 := by
      simp only [List.length_append, List.length_cons, List.length_nil]
      have : "Token".data.length = 5 := by decide
      omega
    have d8 : JSON.maxNestingDepth ≠ 0 := by decide
    rw [JSON.parse, e, JSON.parseValue]
    simp only [JSON.skipSpace, d1, d2, d5, d6, d8, Bool.false_eq_true, if_false, if_true,
      parseMembers_token t.data h (t.data.length + 10) (JSON.maxNestingDepth - 1) []]
  simp only [JSON.unmarshalToken, hp]
  rfl

/-- Against claim C10 as stated: an id that starts with twenty digits and ends
in a letter is no decimal integer, yet `Atoi` returns the largest `int` for
it, and the request panics where the id `0` is answered. -/
theorem getArticle_overlong_id_counterexample :
    Strconv.IsDecimalInteger "99999999999999999999x" = false ∧
      getArticle sampleWorld (sampleRequest secretBody "A" "99999999999999999999x")
        = ⟨["A"], .error (.indexOutOfRange (2 ^ 63 - 1) 1)⟩ ∧
      getArticle sampleWorld (sampleRequest secretBody "A" "0")
        = ⟨["A"], .ok
            { status := some 200, header := [("Content-Type", "application/json")],
              body := JSON.marshalArticle { Title := "First" } }⟩ := by
  decide

/-- Claim C10, amended: when `strconv.Atoi` rejects the id with a syntax error,
`getArticle` behaves as for the id `0`, and an authorized request for a feed
with at least one item is answered with the first item. -/
theorem getArticle_syntax_error_id (w : World) (r : Request)
    (hsyn : (Strconv.Atoi (r.vars "id")).2 = some .ErrSyntax) :
    getArticle w r
        = getArticle w { r with vars := fun k => if k = "id" then "0" else r.vars k } ∧
      ∀ (first : Article) (others : List Article),
        verifyToken w.oracle (JSON.unmarshalToken r.body {}).Token = .ok true →
        (JSON.unmarshalFeed (ReadFile w.files (r.vars "name")) {}).Items
          = some (first :: others) →
        getArticle w r = ⟨[r.vars "name"], .ok
          { status := some 200, header := [("Content-Type", "application/json")],
            body := JSON.marshalArticle first }⟩ := by
  have hz : (Strconv.Atoi (r.vars "id")).1 = 0 := atoi_syntax_value _ hsyn
  have h0 : (Strconv.Atoi "0").1 = 0 := by decide
  constructor
  · simp only [getArticle, hz]
    simp [h0]
  · intro first others hauth hitems
    simp only [getArticle, hauth, hz, hitems, Option.getD_some]
    simp [ResponseWriter.SetHeader, ResponseWriter.Write, ResponseWriter.WriteHeader]

theorem getArticle_syntax_error_id_witness :
    getArticle sampleWorld (sampleRequest secretBody "A" "abc")
        = getArticle sampleWorld
            { sampleRequest secretBody "A" "abc" with
              vars := fun k => if k = "id" then "0" else (sampleRequest secretBody "A" "abc").vars k } ∧
      ∀ (first : Article) (others : List Article),
        verifyToken sampleWorld.oracle
            (JSON.unmarshalToken (sampleRequest secretBody "A" "abc").body {}).Token = .ok true →
        (JSON.unmarshalFeed
            (ReadFile sampleWorld.files ((sampleRequest secretBody "A" "abc").vars "name")) {}).Items
          = some (first :: others) →
        getArticle sampleWorld (sampleRequest secretBody "A" "abc")
          = ⟨[(sampleRequest secretBody "A" "abc").vars "name"], .ok
              { status := some 200, header := [("Content-Type", "application/json")],
                body := JSON.marshalArticle first }⟩ :=
  getArticle_syntax_error_id sampleWorld (sampleRequest secretBody "A" "abc") (by decide)

/-! ## Theorems: the refresh pass -/

/-- The disk after `os.Create(name)` and `f.Write(save)`. -/
theorem create_write_files (d : Disk) (name save : String) (h : d.creatable name = true) (n : String) :
    (((d.Create name).2).Write (d.Create name).1 save).files n
      = if n = name then some save else d.files n := by
  simp only [Disk.Create, h, if_true, Disk.Write, ReadFile]
  by_cases hn : n = name
  · simp [hn]
  · simp [hn]

theorem create_write_files_other (d : Disk) (name save n : String) (hn : n ≠ name) :
    (((d.Create name).2).Write (d.Create name).1 save).files n = d.files n := by
  unfold Disk.Create
  split_ifs <;> simp [Disk.Write, hn]

theorem create_write_creatable (d : Disk) (name save : String) :
    (((d.Create name).2).Write (d.Create name).1 save).creatable = d.creatable := by
  unfold Disk.Create
  split_ifs <;> simp [Disk.Write]

theorem catchFeedsLoop_files_other (net : Net) (n : String) :
    ∀ (feeds : List FeedRegistry) (d : Disk) (ev : List Event),
      (∀ e ∈ feeds, e.Name ≠ n) → (catchFeedsLoop net feeds d ev).disk.files n = d.files n := by
  intro feeds
  induction feeds with
  | nil => intro d ev _; rfl
  | cons entry rest ih =>
    intro d ev h
    have hn : n ≠ entry.Name := fun e => h entry (List.mem_cons_self _ _) e.symm
    have hrest : ∀ e ∈ rest, e.Name ≠ n := fun e he => h e (List.mem_cons_of_mem _ he)
    simp only [catchFeedsLoop]
    cases net.ParseURL entry.URL with
    | none =>
      simp only
      cases (net.Get entry.URL).response with
      | none => rfl
      | some body =>
        simp only
        cases net.ParseString body with
        | none => exact ih _ _ hrest
        | some cont =>
          simp only
          rw [ih _ _ hrest]
          exact create_write_files_other d entry.Name _ n hn
    | some cont =>
      simp only
      rw [ih _ _ hrest]
      exact create_write_files_other d entry.Name _ n hn

theorem catchFeedsLoop_creatable (net : Net) :
    ∀ (feeds : List FeedRegistry) (d : Disk) (ev : List Event),
      (catchFeedsLoop net feeds d ev).disk.creatable = d.creatable := by
  intro feeds
  induction feeds with
  | nil => intro d ev; rfl
  | cons entry rest ih =>
    intro d ev
    simp only [catchFeedsLoop]
    cases net.ParseURL entry.URL with
    | none =>
      simp only
      cases (net.Get entry.URL).response with
      | none => rfl
      | some body =>
        simp only
        cases net.ParseString body with
        | none => exact ih _ _
        | some cont =>
          simp only
          rw [ih _ _]
          exact create_write_creatable d entry.Name _
    | some cont =>
      simp only
      rw [ih _ _]
      exact create_write_creatable d entry.Name _

theorem catchFeedsLoop_append (net : Net) (ys : List FeedRegistry) :
    ∀ (xs : List FeedRegistry) (d : Disk) (ev : List Event),
      catchFeedsLoop net (xs ++ ys) d ev =
        match (catchFeedsLoop net xs d ev).panicked with
        | none => catchFeedsLoop net ys (catchFeedsLoop net xs d ev).disk
            (catchFeedsLoop net xs d ev).events
        | some _ => catchFeedsLoop net xs d ev := by
  intro xs
  induction xs with
  | nil => intro d ev; rfl
  | cons entry rest ih =>
    intro d ev
    simp only [List.cons_append, catchFeedsLoop]
    cases net.ParseURL entry.URL with
    | none =>
      simp only
      cases (net.Get entry.URL).response with
      | none => rfl
      | some body =>
        simp only
        cases net.ParseString body with
        | none => exact ih _ _
        | some cont => exact ih _ _
    | some cont => exact ih _ _

/-- What the pass has done once it is past a prefix of the registry that did
not panic: the pass over the whole registry is the loop over the rest, started
from the disk and the events the prefix left. -/
theorem catchFeeds_append (net : Net) (pre post : List FeedRegistry) (d : Disk)
    (hreach : (catchFeeds net pre d).panicked = none) :
    catchFeeds net (pre ++ post) d
      = catchFeedsLoop net post (catchFeeds net pre d).disk (catchFeeds net pre d).events := by
  unfold catchFeeds at hreach ⊢
  rw [catchFeedsLoop_append, hreach]

/-- Against claim C5 as stated: for the entry `A`, whose structured fetch fails
and whose download succeeds, the pass does report an error, the failure of the
structured fetch; and where the file cannot be created the pass ends without a
file named `A`, and without a word about it. -/
theorem catchFeeds_fallback_counterexample :
    (catchFeeds sampleNet [{ Name := "A", URL := "http://a" }] emptyDisk).events
        = [Event.notice "Routine Background Task: Catching Feeds",
            Event.error "Connection could not be established. Parser returned error:",
            Event.sleep 20, Event.info "Trying alternative"] ∧
      (catchFeeds sampleNet [{ Name := "A", URL := "http://a" }] readOnlyDisk).disk.files "A"
        = none ∧
      (catchFeeds sampleNet [{ Name := "A", URL := "http://a" }] readOnlyDisk).events
        = (catchFeeds sampleNet [{ Name := "A", URL := "http://a" }] emptyDisk).events ∧
      (catchFeeds sampleNet [{ Name := "A", URL := "http://a" }] readOnlyDisk).panicked
        = none := by
  decide

/-- Claim C5, amended: take an entry that the pass reaches, whose structured
fetch fails, whose download succeeds and parses to `cont`, whose file can be
created and whose name no later entry carries.  Up to and including that
entry the pass logs the failure of the structured fetch, sleeps 20 seconds,
logs the retry and nothing more, and does not panic; after the whole pass the
file of that name holds the serialization of the normalized `cont`.  A pass
over the same registry in which the structured fetch of the entry yields
`cont` leaves the same bytes in that file. -/
theorem catchFeeds_fallback_persists (net : Net) (pre post : List FeedRegistry)
    (entry : FeedRegistry) (d : Disk) (body : String) (cont : GoFeed)
    (hreach : (catchFeeds net pre d).panicked = none)
    (hprimary : net.ParseURL entry.URL = none)
    (hget : net.Get entry.URL = ⟨some body, false⟩)
    (hparse : net.ParseString body = some cont)
    (hcreate : d.creatable entry.Name = true)
    (hlater : ∀ e ∈ post, e.Name ≠ entry.Name) :
    (catchFeeds net (pre ++ entry :: post) d).disk.files entry.Name
        = some (JSON.marshalFeed (JSON.unmarshalFeed cont.json {})) ∧
      (catchFeeds net (pre ++ [entry]) d).events
        = (catchFeeds net pre d).events
          ++ [Event.error "Connection could not be established. Parser returned error:",
              Event.sleep 20, Event.info "Trying alternative"] ∧
      (catchFeeds net (pre ++ [entry]) d).panicked = none ∧
      ∀ net1 : Net, (catchFeeds net1 pre d).panicked = none →
        net1.ParseURL entry.URL = some cont →
        (catchFeeds net1 (pre ++ entry :: post) d).disk.files entry.Name
          = (catchFeeds net (pre ++ entry :: post) d).disk.files entry.Name := by
  have hwrite : ∀ (n : Net), (catchFeeds n pre d).panicked = none →
      (n.ParseURL entry.URL = some cont ∨
        (n.ParseURL entry.URL = none ∧ (n.Get entry.URL).response = some body ∧
          n.ParseString body = some cont)) →
      (catchFeeds n (pre ++ entry :: post) d).disk.files entry.Name
        = some (JSON.marshalFeed (JSON.unmarshalFeed cont.json {})) := by
    intro n hn hf
    have hc : (catchFeeds n pre d).disk.creatable entry.Name = true := by
      unfold catchFeeds
      rw [catchFeedsLoop_creatable]
      exact hcreate
    rw [catchFeeds_append n pre _ d hn]
    rcases hf with h1 | ⟨h1, h2, h3⟩
    · simp only [catchFeedsLoop, h1]
      rw [catchFeedsLoop_files_other n entry.Name post _ _ hlater, create_write_files _ _ _ hc]
      simp
    · simp only [catchFeedsLoop, h1, h2, h3]
      rw [catchFeedsLoop_files_other n entry.Name post _ _ hlater, create_write_files _ _ _ hc]
      simp
  have hresp : (net.Get entry.URL).response = some body := by rw [hget]
  have herr : (net.Get entry.URL).err = false := by rw [hget]
  refine ⟨hwrite net hreach (Or.inr ⟨hprimary, hresp, hparse⟩), ?_, ?_, ?_⟩
  · rw [catchFeeds_append net pre _ d hreach]
    simp [catchFeedsLoop, hprimary, hresp, herr, hparse]
  · rw [catchFeeds_append net pre _ d hreach]
    simp [catchFeedsLoop, hprimary, hresp, herr, hparse]
  · intro net1 hreach1 h1
    rw [hwrite net1 hreach1 (Or.inl h1),
      hwrite net hreach (Or.inr ⟨hprimary, hresp, hparse⟩)]

/-- The sample pass over `B` then `A`: `A` is fetched by the download. -/
theorem catchFeeds_fallback_persists_witness :
    (catchFeeds sampleNet
        ([{ Name := "B", URL := "http://b" }] ++ { Name := "A", URL := "http://a" } :: [])
        emptyDisk).disk.files "A"
        = some (JSON.marshalFeed
            (JSON.unmarshalFeed "\x7b\"title\":\"A\",\"items\":[]\x7d" {})) ∧
      (catchFeeds sampleNet
        ([{ Name := "B", URL := "http://b" }] ++ [{ Name := "A", URL := "http://a" }])
        emptyDisk).events
        = (catchFeeds sampleNet [{ Name := "B", URL := "http://b" }] emptyDisk).events
          ++ [Event.error "Connection could not be established. Parser returned error:",
              Event.sleep 20, Event.info "Trying alternative"] ∧
      (catchFeeds sampleNet
        ([{ Name := "B", URL := "http://b" }] ++ [{ Name := "A", URL := "http://a" }])
        emptyDisk).panicked = none ∧
      ∀ net1 : Net,
        (catchFeeds net1 [{ Name := "B", URL := "http://b" }] emptyDisk).panicked = none →
        net1.ParseURL "http://a" = some ⟨"\x7b\"title\":\"A\",\"items\":[]\x7d"⟩ →
        (catchFeeds net1
          ([{ Name := "B", URL := "http://b" }] ++ { Name := "A", URL := "http://a" } :: [])
          emptyDisk).disk.files "A"
          = (catchFeeds sampleNet
              ([{ Name := "B", URL := "http://b" }] ++ { Name := "A", URL := "http://a" } :: [])
              emptyDisk).disk.files "A" :=
  catchFeeds_fallback_persists sampleNet [{ Name := "B", URL := "http://b" }] []
    { Name := "A", URL := "http://a" } emptyDisk "<rss>a</rss>"
    ⟨"\x7b\"title\":\"A\",\"items\":[]\x7d"⟩
    (by decide) (by decide) (by decide) (by decide) (by decide) (by simp)

/-- Claim C6, at the failing input: when the structured fetch and the download
of the first entry both fail, the pass panics on the nil response and the
second entry, whose fetch would succeed, is never persisted. -/
theorem catchFeeds_transport_error_panics :
    (catchFeeds sampleNet [{ Name := "C", URL := "http://c" }, { Name := "B", URL := "http://b" }]
        emptyDisk).panicked = some .nilDereference ∧
      (catchFeeds sampleNet [{ Name := "C", URL := "http://c" }, { Name := "B", URL := "http://b" }]
        emptyDisk).disk.files "B" = none ∧
      (catchFeeds sampleNet [{ Name := "B", URL := "http://b" }] emptyDisk).disk.files "B"
        = some (JSON.marshalFeed { Title := "B" }) := by
  decide

/-- A download that does not parse is logged and skipped, the disk left as it
is. -/
theorem catchFeeds_fallback_parse_error_skips (net : Net) (entry : FeedRegistry)
    (rest : List FeedRegistry) (d : Disk) (ev : List Event) (body : String)
    (hprimary : net.ParseURL entry.URL = none)
    (hget : net.Get entry.URL = ⟨some body, false⟩)
    (hparse : net.ParseString body = none) :
    catchFeedsLoop net (entry :: rest) d ev
      = catchFeedsLoop net rest d
          (ev ++ [Event.error "Connection could not be established. Parser returned error:",
              Event.sleep 20, Event.info "Trying alternative"]
            ++ [Event.error "Connection could not be established again. Parser returned error:"]) := by
  simp [catchFeedsLoop, hprimary, hget, hparse]

/-- Claim C7: after a pass that completes, for an entry whose fetch succeeded,
whose file can be created and whose name no later entry carries, an authorized
`getFeed` of that name answers with exactly the serialization of the
normalized feed; and serializing, deserializing and serializing a `Feed` gives
the first serialization. -/
theorem refresh_then_getFeed (net : Net) (pre post : List FeedRegistry) (entry : FeedRegistry)
    (d : Disk) (cont : GoFeed) (oracle : String → OracleReply) (r : Request)
    (hlater : ∀ e ∈ post, e.Name ≠ entry.Name)
    (hfetch : net.ParseURL entry.URL = some cont ∨
      (net.ParseURL entry.URL = none ∧
        ∃ body, (net.Get entry.URL).response = some body ∧ net.ParseString body = some cont))
    (hcreate : d.creatable entry.Name = true)
    (hdone : (catchFeeds net (pre ++ entry :: post) d).panicked = none)
    (hauth : verifyToken oracle (JSON.unmarshalToken r.body {}).Token = .ok true)
    (hname : r.vars "name" = entry.Name) :
    getFeed
        { files := (catchFeeds net (pre ++ entry :: post) d).disk.files,
          oracle := oracle, feeds := some (pre ++ entry :: post) } r
      = ⟨[entry.Name], .ok
          { status := some 200, header := [("Content-Type", "application/json")],
            body := JSON.marshalFeed (JSON.unmarshalFeed cont.json {}) }⟩ ∧
    ∀ f : Feed, JSON.marshalFeed (JSON.unmarshalFeed (JSON.marshalFeed f) {}) = JSON.marshalFeed f := by
  refine ⟨?_, fun f => by rw [JSON.unmarshalFeed_marshalFeed]⟩
  have hfile : (catchFeeds net (pre ++ entry :: post) d).disk.files entry.Name
      = some (JSON.marshalFeed (JSON.unmarshalFeed cont.json {})) := by
    unfold catchFeeds at hdone ⊢
    rw [catchFeedsLoop_append] at hdone ⊢
    cases hp : (catchFeedsLoop net pre d
        [Event.notice "Routine Background Task: Catching Feeds"]).panicked with
    | some p =>
      simp only [hp] at hdone
      exact absurd hdone (by simp)
    | none =>
      simp only
      have hc : (catchFeedsLoop net pre d
          [Event.notice "Routine Background Task: Catching Feeds"]).disk.creatable entry.Name
            = true := by
        rw [catchFeedsLoop_creatable]; exact hcreate
      rcases hfetch with h1 | ⟨h1, body, h2, h3⟩
      · simp only [catchFeedsLoop, h1]
        rw [catchFeedsLoop_files_other net entry.Name post _ _ hlater,
          create_write_files _ _ _ hc]
        simp
      · simp only [catchFeedsLoop, h1, h2, h3]
        rw [catchFeedsLoop_files_other net entry.Name post _ _ hlater,
          create_write_files _ _ _ hc]
        simp
  simp only [getFeed, hauth, hname, ReadFile, hfile]
  rfl

theorem refresh_then_getFeed_witness :
    getFeed
        { files := (catchFeeds sampleNet
            ([{ Name := "A", URL := "http://a" }] ++ { Name := "B", URL := "http://b" } :: [])
            emptyDisk).disk.files,
          oracle := sampleOracle,
          feeds := some
            ([{ Name := "A", URL := "http://a" }] ++ { Name := "B", URL := "http://b" } :: []) }
        (sampleRequest secretBody "B" "")
      = ⟨["B"], .ok
          { status := some 200, header := [("Content-Type", "application/json")],
            body := JSON.marshalFeed (JSON.unmarshalFeed "\x7b\"title\":\"B\"\x7d" {}) }⟩ ∧
    ∀ f : Feed, JSON.marshalFeed (JSON.unmarshalFeed (JSON.marshalFeed f) {}) = JSON.marshalFeed f :=
  refresh_then_getFeed sampleNet [{ Name := "A", URL := "http://a" }] []
    { Name := "B", URL := "http://b" } emptyDisk ⟨"\x7b\"title\":\"B\"\x7d"⟩ sampleOracle
    (sampleRequest secretBody "B" "")
    (by simp) (Or.inl (by decide)) (by decide) (by decide) (by decide) (by decide)

end Hub
